import Mathlib

/-!
Verification development for the spacebot client state estimator
(src/client/src/analyzer.rs and src/client/src/util.rs).

Modelling conventions:
* `f32` coordinates, angles and timestamps are modelled as exact rationals `ℚ`
  (rounding of finite float arithmetic is not modelled); a possibly non-finite
  `f32` value (NaN or ±Inf, which in this code arises only from division by a
  zero divisor) is modelled as `Option ℚ`, with `none` standing for any
  non-finite value.
* `Instant` is a rational number of seconds; `Duration` is a nonnegative
  rational number of seconds.  `Duration::as_secs` truncates to whole seconds,
  modelled by `durAsSecs`.
* `u32` scores are modelled as `ℕ` with release-mode wrapping arithmetic:
  subtraction and addition wrap modulo `2^32` (`u32sub`, `u32add`; debug
  builds panic on overflow instead), and the `f32 → u32` cast truncates
  toward zero, saturating at the `u32` range (`f32toU32`).
* Rust panics (`unwrap` on `None`, `assert_eq!` failure, `unimplemented!`) are
  modelled by an `Option` result with `none` standing for the panic.
* Angle computations take values in `ℝ`.
-/

namespace Spacebot

/-- `Duration::as_secs`: the number of whole seconds of a duration, truncating
the fractional part (so any duration below one second has `as_secs = 0`). -/
def durAsSecs (d : ℚ) : ℕ := d.floor.toNat

/-- `f32` division by the (cast) whole-second count of a duration.  A zero
divisor yields a non-finite float (Inf or NaN), modelled as `none`. -/
def fdiv (x : ℚ) (n : ℕ) : Option ℚ := if n = 0 then none else some (x / n)

/-- `Position` from src/client/src/util.rs (coordinates modelled as `ℚ`). -/
structure Position where
  x : ℚ
  y : ℚ
deriving DecidableEq, Repr

/-- `Velocity` from src/client/src/util.rs.  Each `f32` component is modelled
as `Option ℚ`: `some q` is the finite value `q`, `none` is a non-finite value
(NaN/Inf). -/
structure Velocity where
  dx : Option ℚ
  dy : Option ℚ
deriving DecidableEq, Repr

/-- `Velocity::zeros`. -/
def Velocity.zeros : Velocity := ⟨some 0, some 0⟩

/-- Componentwise addition of possibly non-finite floats: a non-finite operand
makes the sum non-finite. -/
def addO (a b : Option ℚ) : Option ℚ :=
  match a, b with
  | some x, some y => some (x + y)
  | _, _ => none

/-- Velocity addition (used by the `ave_abs_velocity` fold). -/
def Velocity.add (v w : Velocity) : Velocity := ⟨addO v.dx w.dx, addO v.dy w.dy⟩

/-- `Velocity::abs`: componentwise absolute value (NaN stays NaN). -/
def Velocity.abs (v : Velocity) : Velocity := ⟨v.dx.map (|·|), v.dy.map (|·|)⟩

/-- Division of a velocity by a positive sample count (used for averaging). -/
def Velocity.divNat (v : Velocity) (n : ℕ) : Velocity :=
  ⟨v.dx.map (· / (n : ℚ)), v.dy.map (· / (n : ℚ))⟩

/-- `Position::velocity_to` from src/client/src/util.rs: componentwise
difference divided by `time.as_secs()` (whole seconds, truncated). -/
def Position.velocity_to (a dest : Position) (time : ℚ) : Velocity :=
  ⟨fdiv (dest.x - a.x) (durAsSecs time), fdiv (dest.y - a.y) (durAsSecs time)⟩

/-- `Position::angle_to` from src/client/src/util.rs: the single-argument
arctangent of the slope `(Δy / Δx)` (a restricted-range bearing). -/
noncomputable def Position.angle_to (a other : Position) : ℝ :=
  Real.arctan (((other.y - a.y : ℚ) : ℝ) / ((other.x - a.x : ℚ) : ℝ))

/-- The full-circle bearing stated by the spec (§4.1): the two-argument
arctangent `atan2 (Δy, Δx)`, i.e. the argument of the complex number
`Δx + Δy·i`.  This definition follows the spec's words and serves as the
reference the source's `angle_to` is compared against. -/
noncomputable def bearing (a other : Position) : ℝ :=
  Complex.arg ⟨((other.x - a.x : ℚ) : ℝ), ((other.y - a.y : ℚ) : ℝ)⟩

/-- `Trajectory` from src/client/src/analyzer.rs (same in util.rs): the
append-only list of `(position, timestamp)` samples. -/
structure Trajectory where
  positions : List (Position × ℚ)
deriving DecidableEq, Repr

/-- `Trajectory::new`. -/
def Trajectory.new : Trajectory := ⟨[]⟩

/-- `Trajectory::push`. -/
def Trajectory.push (tr : Trajectory) (position : Position) (time : ℚ) : Trajectory :=
  ⟨tr.positions ++ [(position, time)]⟩

/-- `Trajectory::last_position`; `none` models the `unwrap` panic on an empty
trajectory. -/
def Trajectory.last_position (tr : Trajectory) : Option Position :=
  tr.positions.getLast?.map Prod.fst

/-- `Trajectory::last_velocity`; the outer `none` models the `unwrap` panic on
an empty trajectory.  With a single sample the source computes
`positions.len() - 2` in `usize`, which wraps to a huge index so the `get`
returns `None` and zeros are returned; the explicit two-sample guard encodes
that wrap faithfully (`ℕ` subtraction would alias index 0 instead). -/
def Trajectory.last_velocity (tr : Trajectory) : Option Velocity :=
  tr.positions.getLast?.map fun last =>
    if 2 ≤ tr.positions.length then
      match tr.positions.get? (tr.positions.length - 2) with
      | some prev => prev.1.velocity_to last.1 (last.2 - prev.2)
      | none => Velocity.zeros
    else Velocity.zeros

/-- `Trajectory::ave_abs_velocity` from src/client/src/analyzer.rs: the mean of
the componentwise absolute per-step velocities over the whole history, zero
when there are fewer than two samples. -/
def Trajectory.ave_abs_velocity (tr : Trajectory) : Velocity :=
  let vels := (tr.positions.zip tr.positions.tail).map fun pq =>
    (pq.1.1.velocity_to pq.2.1 (pq.2.2 - pq.1.2)).abs
  if vels.length = 0 then Velocity.zeros
  else (vels.foldl Velocity.add Velocity.zeros).divNat vels.length

/-- Wrapping `u32` subtraction, as Rust release builds evaluate
`last_score - start_score`: the difference modulo `2^32` (debug builds panic
on underflow). -/
def u32sub (a b : ℕ) : ℕ := (a + (2 ^ 32 - b % 2 ^ 32)) % 2 ^ 32

/-- Wrapping `u32` addition (release-mode Rust semantics; debug builds panic
on overflow). -/
def u32add (a b : ℕ) : ℕ := (a + b) % 2 ^ 32

/-- The Rust `as u32` cast from `f32`: truncation toward zero, saturating at
the `u32` range (negative values to 0, values at or above `2^32` to
`u32::MAX`). -/
def f32toU32 (q : ℚ) : ℕ := if q ≤ 0 then 0 else min q.floor.toNat (2 ^ 32 - 1)

/-- `ScoreHistory` from src/client/src/analyzer.rs: the append-only list of
`(score, timestamp)` samples. -/
structure ScoreHistory where
  inner : List (ℕ × ℚ)
deriving DecidableEq, Repr

/-- `ScoreHistory::new`. -/
def ScoreHistory.new : ScoreHistory := ⟨[]⟩

/-- `ScoreHistory::push`. -/
def ScoreHistory.push (h : ScoreHistory) (score : ℕ) (time : ℚ) : ScoreHistory :=
  ⟨h.inner ++ [(score, time)]⟩

/-- `ScoreHistory::last_score`; `none` models the `unwrap` panic on an empty
history. -/
def ScoreHistory.last_score (h : ScoreHistory) : Option ℕ :=
  h.inner.getLast?.map Prod.fst

/-- `ScoreHistory::score_since`: the backward scan (`iter().rev().find_map`)
for the latest pushed sample with timestamp at or before `since`, defaulting
to 0, subtracted from `last_score()` with wrapping `u32` subtraction. -/
def ScoreHistory.score_since (h : ScoreHistory) (since : ℚ) : Option ℕ :=
  h.last_score.map fun last =>
    u32sub last
      (((h.inner.reverse.find? fun p => decide (p.2 ≤ since)).map Prod.fst).getD 0)

/-- `ScoreHistory::project`: the source reads `Instant::now()`, modelled here
as the extra parameter `now`; `after` is taken in milliseconds (the source
converts with `as_millis`), the lookback window is 10 s = 10000 ms, the
`f32 → u32` cast of the scaled delta saturates and truncates (`f32toU32`),
and the final `u32` addition wraps (`u32add`). -/
def ScoreHistory.project (h : ScoreHistory) (now : ℚ) (afterMs : ℕ) : Option ℕ :=
  (h.score_since (now - 10)).bind fun past =>
    h.last_score.map fun last =>
      u32add last (f32toU32 ((past : ℚ) * ((afterMs : ℚ) / 10000)))

/-- The baseline of the spec's description of `score_since`: the score of the
latest sample (in push order) whose timestamp is at or before `t`, or 0 when
no sample qualifies.  This definition follows the spec's words via
`filter`/`getLast?`; the source's backward scan is compared against it in the
score-history theorems. -/
def spec_baseline (h : ScoreHistory) (t : ℚ) : ℕ :=
  ((h.inner.filter fun p => decide (p.2 ≤ t)).getLast?.map Prod.fst).getD 0

/-- `PlayerState` (common::models): one player's entry in a snapshot. -/
structure PlayerState where
  id : ℕ
  x : ℚ
  y : ℚ
  angle : ℚ
deriving DecidableEq, Repr

/-- `BulletState` (common::models): one bullet's entry in a snapshot. -/
structure BulletState where
  x : ℚ
  y : ℚ
  angle : ℚ
  player_id : ℕ
deriving DecidableEq, Repr

/-- `GameState` (common::models): a snapshot; the scoreboard map is modelled
as a partial function from player id to score. -/
structure GameState where
  players : List PlayerState
  bullets : List BulletState
  scoreboard : ℕ → Option ℕ

/-- `Player` from src/client/src/analyzer.rs. -/
structure Player where
  id : ℕ
  angle : ℚ
  position : Position
  trajectory : Trajectory
  score_history : ScoreHistory
  last_update : ℚ
deriving DecidableEq, Repr

/-- `Player::with_state`: build a player from a snapshot entry; `none` models
the panic of the `unwrap` on a missing scoreboard entry. -/
def Player.with_state (state : PlayerState) (scoreboard : ℕ → Option ℕ) (time : ℚ) :
    Option Player :=
  (scoreboard state.id).map fun sc =>
    { id := state.id
      angle := state.angle
      position := ⟨state.x, state.y⟩
      trajectory := Trajectory.new.push ⟨state.x, state.y⟩ time
      score_history := ScoreHistory.new.push sc time
      last_update := time }

/-- `Player::push_state`: update a tracked player from a snapshot entry;
`none` models both the `assert_eq!(self.id, state.id)` panic and the panic of
the `unwrap` on a missing scoreboard entry (in the source the panic occurs
after the angle/position/trajectory writes; the `Option` model collapses the
partially mutated player into the panic outcome). -/
def Player.push_state (p : Player) (state : PlayerState) (scoreboard : ℕ → Option ℕ)
    (time : ℚ) : Option Player :=
  if p.id = state.id then
    (scoreboard state.id).map fun sc =>
      { p with
        angle := state.angle
        position := ⟨state.x, state.y⟩
        trajectory := p.trajectory.push ⟨state.x, state.y⟩ time
        score_history := p.score_history.push sc time
        last_update := time }
  else none

/-- `Bullet` from src/client/src/analyzer.rs; the velocity components involve
`cos`/`sin` of the bullet angle and so live in `ℝ`. -/
structure Bullet where
  position : Position
  velocity : ℝ × ℝ
  player_id : ℕ

/-- Modelled from the spec: `BULLET_SPEED` is imported from the absent
`common::models` crate; the duplicated legacy module pins it to `1.0`, and the
spec (§9) treats it as a configuration constant.  It is taken as `1`. -/
def BULLET_SPEED : ℝ := 1

/-- Modelled from the spec: `Vector::with_angle` lives in the absent `geom`
module; per spec §4.1 it is the unit vector at `angle` scaled by `speed`
(matching `Velocity::with_angle` of the legacy util.rs module). -/
noncomputable def with_angle (angle speed : ℝ) : ℝ × ℝ :=
  (speed * Real.cos angle, speed * Real.sin angle)

/-- `Bullet::new`: snapshot position, velocity `with_angle(angle) * BULLET_SPEED`. -/
noncomputable def Bullet.new (state : BulletState) : Bullet :=
  { position := ⟨state.x, state.y⟩
    velocity := with_angle ((state.angle : ℝ)) BULLET_SPEED
    player_id := state.player_id }

/-- `Analyzer` from src/client/src/analyzer.rs; the `HashMap` of players is
modelled as a partial function from id to `Player`. -/
structure Analyzer where
  own_player_id : ℕ
  players : ℕ → Option Player
  bullets : List Bullet

/-- `Analyzer::new`. -/
def Analyzer.new : Analyzer := ⟨0, fun _ => none, []⟩

/-- Pointwise update of the player map (both `HashMap::insert` with
`v = some p` and `HashMap::remove` with `v = none`). -/
def updateMap (m : ℕ → Option Player) (k : ℕ) (v : Option Player) : ℕ → Option Player :=
  fun id => if id = k then v else m id

/-- The player-reconciliation loop of `Analyzer::push_state`: walks the
snapshot's player list, moving (`remove` + `push_state`) or creating
(`with_state`) each player into the fresh map `acc`; `none` models a panic in
either branch. -/
def push_players (old acc : ℕ → Option Player) (sb : ℕ → Option ℕ) (t : ℚ) :
    List PlayerState → Option (ℕ → Option Player)
  | [] => some acc
  | ps :: rest =>
    match old ps.id with
    | some prev =>
      (prev.push_state ps sb t).bind fun p =>
        push_players (updateMap old ps.id none) (updateMap acc p.id (some p)) sb t rest
    | none =>
      (Player.with_state ps sb t).bind fun p =>
        push_players old (updateMap acc p.id (some p)) sb t rest

/-- `Analyzer::push_state`: rebuild the player map from the snapshot and
replace the bullet list wholesale; `none` models a panic during the loop. -/
noncomputable def Analyzer.push_state (a : Analyzer) (state : GameState) (time : ℚ) :
    Option Analyzer :=
  (push_players a.players (fun _ => none) state.scoreboard time state.players).map fun m =>
    { a with players := m, bullets := state.bullets.map Bullet.new }

/-- `Analyzer::player`; `none` models the `unwrap` panic on an untracked id. -/
def Analyzer.player (a : Analyzer) (id : ℕ) : Option Player := a.players id

/-- `Analyzer::set_own_player_id`. -/
def Analyzer.set_own_player_id (a : Analyzer) (id : ℕ) : Analyzer :=
  { a with own_player_id := id }

/-- `Analyzer::own_player`. -/
def Analyzer.own_player (a : Analyzer) : Option Player := a.player a.own_player_id

/-- `Analyzer::angle_to`: the restricted-range bearing from the own player's
position to the target's position; `none` models the panics of the two
player lookups. -/
noncomputable def Analyzer.angle_to (a : Analyzer) (target : ℕ) : Option ℝ :=
  a.own_player.bind fun own =>
    (a.player target).map fun tgt => own.position.angle_to tgt.position

/-- Propagates a proposition under a successful (`some`) outcome; a panic
(`none`) outcome satisfies it vacuously. -/
def onSome {α : Type} (o : Option α) (P : α → Prop) : Prop :=
  match o with
  | none => True
  | some x => P x

/-- Dot product of two planar vectors (represented as `Position`). -/
def dot (a b : Position) : ℚ := a.x * b.x + a.y * b.y

/-- Vector addition. -/
def vadd (a b : Position) : Position := ⟨a.x + b.x, a.y + b.y⟩

/-- Vector subtraction. -/
def vsub (a b : Position) : Position := ⟨a.x - b.x, a.y - b.y⟩

/-- Scalar multiple. -/
def smul (t : ℚ) (a : Position) : Position := ⟨t * a.x, t * a.y⟩

/-- Modelled from the spec: a bullet as the collision forecaster of §4.5
consumes it — position and (constant) velocity as exact rational vectors.
`Analyzer::bullets_to_collide` is an `unimplemented!()` stub in
src/client/src/analyzer.rs, so the forecaster's data and algorithm are taken
from spec §4.5. -/
structure MBullet where
  position : Position
  velocity : Position
  player_id : ℕ
deriving DecidableEq, Repr

/-- Modelled from the spec (§4.5): the closest-point-of-approach test for one
bullet against the local player at position `pp` moving with constant velocity
`pv`.  With `Δp = Bp − Pp` and `Δv = Bv − Pv`, if `|Δv|² = 0` the pair never
converges and a collision is reported (at `t = 0`) only when already within
the hit radius; otherwise the minimiser `t* = −(Δp·Δv)/|Δv|²` of the squared
separation is clamped to `[0, horizon]` and a collision at the clamped time is
reported when the separation there is at most `R`. -/
def collide_time (pp pv : Position) (R h : ℚ) (b : MBullet) : Option ℚ :=
  let dp := vsub b.position pp
  let dv := vsub b.velocity pv
  if dot dv dv = 0 then
    if dot dp dp ≤ R ^ 2 then some 0 else none
  else
    let t := max 0 (min (-(dot dp dv) / dot dv dv) h)
    if dot (vadd dp (smul t dv)) (vadd dp (smul t dv)) ≤ R ^ 2 then some t else none

/-- Insertion sort of `(bullet, predicted time)` pairs, ascending by predicted
collision time. -/
def sort_by_time (l : List (MBullet × ℚ)) : List (MBullet × ℚ) :=
  l.insertionSort fun x y => x.2 ≤ y.2

instance : IsTotal (MBullet × ℚ) fun x y => x.2 ≤ y.2 :=
  ⟨fun a b => le_total a.2 b.2⟩

instance : IsTrans (MBullet × ℚ) fun x y => x.2 ≤ y.2 :=
  ⟨fun _ _ _ hab hbc => le_trans hab hbc⟩

/-- Modelled from the spec (§4.5 and the interface of §6): the collision
forecaster — every tracked bullet passing the closest-point-of-approach test
within `[0, h]`, paired with its predicted collision time, sorted ascending by
that time.  The local player's position `pp` and constant-velocity estimate
`pv` (its trajectory's `last_velocity()`) are taken as parameters. -/
def bullets_to_collide (pp pv : Position) (R h : ℚ) (bullets : List MBullet) :
    List (MBullet × ℚ) :=
  sort_by_time (bullets.filterMap fun b => (collide_time pp pv R h b).map fun t => (b, t))

/-! ## Helper lemmas and concrete fixtures -/

/-- `Rat.floor` agrees with the ambient `Int.floor` on `ℚ`. -/
theorem ratFloor_eq (q : ℚ) : q.floor = ⌊q⌋ := by
  rw [Rat.floor_def', Rat.floor_def]

/-- A backward scan (`find?` on the reversed list) returns the last element of
the list satisfying the predicate. -/
theorem find?_rev {α : Type} (l : List α) (p : α → Bool) :
    l.reverse.find? p = (l.filter p).getLast? := by
  rw [← List.filter_head?, List.filter_reverse, List.head?_reverse]

/-- A snapshot containing only player 1 at the origin, with a total scoreboard. -/
def GS1 : GameState := ⟨[⟨1, 0, 0, 0⟩], [], fun _ => some 0⟩

/-- A snapshot containing only player 2 at the origin, with a total scoreboard. -/
def GS2 : GameState := ⟨[⟨2, 0, 0, 0⟩], [], fun _ => some 0⟩

/-- A snapshot whose only player (id 3) has no scoreboard entry. -/
def GSmiss : GameState := ⟨[⟨3, 0, 0, 0⟩], [], fun _ => none⟩

/-- A tracked player with id 1 at the origin. -/
def P1 : Player := ⟨1, 0, ⟨0, 0⟩, ⟨[(⟨0, 0⟩, 0)]⟩, ⟨[(0, 0)]⟩, 0⟩

/-- A tracked player with id 2 at `(-1, 0)`, due west of the origin. -/
def P2 : Player := ⟨2, 0, ⟨-1, 0⟩, ⟨[(⟨-1, 0⟩, 0)]⟩, ⟨[(0, 0)]⟩, 0⟩

/-- An analyzer tracking `P1` (the own player) and `P2`. -/
def AA : Analyzer :=
  ⟨1, fun id => if id = 1 then some P1 else if id = 2 then some P2 else none, []⟩

/-- A player built by `Player::with_state` carries the snapshot entry's id. -/
theorem with_state_id {ps : PlayerState} {sb : ℕ → Option ℕ} {t : ℚ} {p : Player}
    (h : Player.with_state ps sb t = some p) : p.id = ps.id := by
  unfold Player.with_state at h
  cases hsb : sb ps.id with
  | none => rw [hsb] at h; simp at h
  | some sc => rw [hsb] at h; simp at h; rw [← h]

/-- A player updated by `Player::push_state` carries the snapshot entry's id. -/
theorem push_state_id {prev : Player} {ps : PlayerState} {sb : ℕ → Option ℕ} {t : ℚ}
    {p : Player} (h : Player.push_state prev ps sb t = some p) : p.id = ps.id := by
  unfold Player.push_state at h
  split at h
  · next heq =>
    cases hsb : sb ps.id with
    | none => rw [hsb] at h; simp at h
    | some sc => rw [hsb] at h; simp at h; rw [← h, ← heq]
  · simp at h

/-- The reconciliation loop never puts an id that is in neither the snapshot
list nor the accumulator into the new map. -/
theorem push_players_none (l : List PlayerState) :
    ∀ (old acc : ℕ → Option Player) (sb : ℕ → Option ℕ) (t : ℚ) (id : ℕ),
    id ∉ l.map PlayerState.id → acc id = none →
    onSome (push_players old acc sb t l) fun m => m id = none := by
  induction l with
  | nil => intro old acc sb t id _ ha; simpa [push_players, onSome] using ha
  | cons ps rest ih =>
    intro old acc sb t id hm ha
    simp only [List.map_cons, List.mem_cons, not_or] at hm
    obtain ⟨hne, hrest⟩ := hm
    cases hop : old ps.id with
    | some prev =>
      cases hps : Player.push_state prev ps sb t with
      | none => simp [push_players, hop, hps, onSome]
      | some p =>
        have hid : p.id = ps.id := push_state_id hps
        simp only [push_players, hop, hps, Option.some_bind]
        exact ih _ _ sb t id hrest (by simp [updateMap, hid, hne, ha])
    | none =>
      cases hps : Player.with_state ps sb t with
      | none => simp [push_players, hop, hps, onSome]
      | some p =>
        have hid : p.id = ps.id := with_state_id hps
        simp only [push_players, hop, hps, Option.some_bind]
        exact ih _ _ sb t id hrest (by simp [updateMap, hid, hne, ha])

/-- Starting from an empty prior map, every player in the map built by the
reconciliation loop is a `with_state` product (and so inherits any property of
`with_state` products). -/
theorem push_players_fresh (l : List PlayerState) :
    ∀ (old acc : ℕ → Option Player) (sb : ℕ → Option ℕ) (t : ℚ) (P : Player → Prop),
    (∀ i, old i = none) →
    (∀ i p, acc i = some p → P p) →
    (∀ ps p, Player.with_state ps sb t = some p → P p) →
    onSome (push_players old acc sb t l) fun m => ∀ i p, m i = some p → P p := by
  induction l with
  | nil => intro old acc sb t P _ hacc _; simpa [push_players, onSome] using hacc
  | cons ps rest ih =>
    intro old acc sb t P hold hacc hws
    cases hps : Player.with_state ps sb t with
    | none => simp [push_players, hold ps.id, hps, onSome]
    | some p =>
      simp only [push_players, hold ps.id, hps, Option.some_bind]
      refine ih _ _ sb t P hold ?_ hws
      intro i q hq
      by_cases hi : i = p.id
      · simp [updateMap, hi] at hq
        exact hq ▸ hws ps p hps
      · simp [updateMap, hi] at hq
        exact hacc i q hq

/-- The reconciliation loop completes without a panic precisely when every
snapshot player has a scoreboard entry (given the map invariant that each
tracked player is stored under its own id, so the `assert_eq!` cannot fire). -/
theorem push_players_isSome (l : List PlayerState) :
    ∀ (old acc : ℕ → Option Player) (sb : ℕ → Option ℕ) (t : ℚ),
    (∀ i p, old i = some p → p.id = i) →
    ((push_players old acc sb t l).isSome ↔ ∀ ps ∈ l, (sb ps.id).isSome) := by
  induction l with
  | nil => intro old acc sb t _; simp [push_players]
  | cons ps rest ih =>
    intro old acc sb t hinv
    cases hop : old ps.id with
    | some prev =>
      have hpid : prev.id = ps.id := hinv ps.id prev hop
      cases hsb : sb ps.id with
      | none =>
        have hnone : Player.push_state prev ps sb t = none := by
          unfold Player.push_state; rw [if_pos hpid, hsb]; rfl
        simp [push_players, hop, hnone, hsb]
      | some sc =>
        obtain ⟨p, hp⟩ : ∃ p, Player.push_state prev ps sb t = some p := by
          unfold Player.push_state; rw [if_pos hpid, hsb]; exact ⟨_, rfl⟩
        have hinv2 : ∀ i q, updateMap old ps.id none i = some q → q.id = i := by
          intro i q hq
          by_cases hi : i = ps.id
          · simp [updateMap, hi] at hq
          · simp [updateMap, hi] at hq; exact hinv i q hq
        simp [push_players, hop, hp, hsb, ih _ _ sb t hinv2]
    | none =>
      cases hsb : sb ps.id with
      | none =>
        have hnone : Player.with_state ps sb t = none := by
          unfold Player.with_state; rw [hsb]; rfl
        simp [push_players, hop, hnone, hsb]
      | some sc =>
        obtain ⟨p, hp⟩ : ∃ p, Player.with_state ps sb t = some p := by
          unfold Player.with_state; rw [hsb]; exact ⟨_, rfl⟩
        simp [push_players, hop, hp, hsb, ih _ _ sb t hinv]

/-- A chain condition on a list holds for every adjacent pair produced by
zipping the list with its tail. -/
theorem chain'_mem_zip_tail {α : Type} {r : α → α → Prop} :
    ∀ {l : List α}, l.Chain' r → ∀ x ∈ l.zip l.tail, r x.1 x.2 := by
  intro l
  induction l with
  | nil => intro _ x hx; simp at hx
  | cons a l2 ih =>
    intro hc x hx
    cases l2 with
    | nil => simp at hx
    | cons b l3 =>
      rw [List.chain'_cons] at hc
      simp only [List.tail_cons, List.zip_cons_cons, List.mem_cons] at hx
      rcases hx with rfl | hx
      · exact hc.1
      · exact ih hc.2 x (by simpa using hx)

/-- Summing a list of zero velocities with the source's fold yields zero. -/
theorem foldl_add_zeros :
    ∀ (vl : List Velocity), (∀ v ∈ vl, v = Velocity.zeros) →
    vl.foldl Velocity.add Velocity.zeros = Velocity.zeros := by
  intro vl
  induction vl with
  | nil => intro _; rfl
  | cons v vs ih =>
    intro hv
    have h1 : v = Velocity.zeros := hv v (by simp)
    have h2 : Velocity.add Velocity.zeros Velocity.zeros = Velocity.zeros := by
      simp [Velocity.add, addO, Velocity.zeros]
    simp only [List.foldl_cons, h1, h2]
    exact ih fun w hw => hv w (by simp [hw])

/-- Evaluation of the closest-point-of-approach test for a bullet at distance
`d` heading straight at a stationary player at the origin with speed `s` and
hit radius 0: a collision at `t = d / s` exactly when that time is within the
horizon. -/
theorem collide_time_head_on (h d s : ℚ) (pid : ℕ) (hh : 0 ≤ h) (hd : 0 < d) (hs : 0 < s) :
    collide_time ⟨0, 0⟩ ⟨0, 0⟩ 0 h ⟨⟨d, 0⟩, ⟨-s, 0⟩, pid⟩ =
      if d / s ≤ h then some (d / s) else none := by
  have hss : (0 : ℚ) < s * s := mul_pos hs hs
  have hdvdv : dot (vsub (⟨-s, 0⟩ : Position) ⟨0, 0⟩) (vsub (⟨-s, 0⟩ : Position) ⟨0, 0⟩)
      = s * s := by simp [dot, vsub]
  have hdpdv : dot (vsub (⟨d, 0⟩ : Position) ⟨0, 0⟩) (vsub (⟨-s, 0⟩ : Position) ⟨0, 0⟩)
      = -(d * s) := by simp [dot, vsub]
  simp only [collide_time]
  rw [hdvdv, hdpdv, if_neg (ne_of_gt hss)]
  have ht : -(-(d * s)) / (s * s) = d / s := by
    rw [neg_neg, div_eq_div_iff (ne_of_gt hss) (ne_of_gt hs)]
    ring
  rw [ht]
  by_cases hc : d / s ≤ h
  · rw [min_eq_left hc, max_eq_right (div_nonneg hd.le hs.le)]
    have hsep : dot
        (vadd (vsub (⟨d, 0⟩ : Position) ⟨0, 0⟩) (smul (d / s) (vsub (⟨-s, 0⟩ : Position) ⟨0, 0⟩)))
        (vadd (vsub (⟨d, 0⟩ : Position) ⟨0, 0⟩) (smul (d / s) (vsub (⟨-s, 0⟩ : Position) ⟨0, 0⟩)))
        = 0 := by
      simp only [dot, vsub, vadd, smul]
      field_simp
    rw [hsep, if_pos (by norm_num), if_pos hc]
  · rw [min_eq_right (le_of_lt (lt_of_not_le hc)), max_eq_right hh]
    have hlt : h * s < d := by
      rw [← lt_div_iff₀ hs]
      exact lt_of_not_le hc
    have hsep : dot
        (vadd (vsub (⟨d, 0⟩ : Position) ⟨0, 0⟩) (smul h (vsub (⟨-s, 0⟩ : Position) ⟨0, 0⟩)))
        (vadd (vsub (⟨d, 0⟩ : Position) ⟨0, 0⟩) (smul h (vsub (⟨-s, 0⟩ : Position) ⟨0, 0⟩)))
        = (d - h * s) ^ 2 := by
      simp only [dot, vsub, vadd, smul]
      ring
    rw [hsep, if_neg, if_neg hc]
    have hpos : (0 : ℚ) < (d - h * s) ^ 2 := pow_pos (sub_pos.2 hlt) 2
    simpa using not_le.2 hpos

/-! ## Claim theorems -/

/-- C9: evaluation of `Analyzer::player` at an untracked id.  The source
performs `self.players.get(&id).unwrap()`, which panics (modelled `none`)
instead of returning an explicit `NotFound` error value as the claim states. -/
theorem player_unknown_id_panics : Analyzer.new.player 5 = none := rfl

/-- C3: `Position::velocity_to` divides by `duration.as_secs()` with no error
path.  At a zero (or any sub-second) duration the divisor is 0 and both
components are non-finite (`none`, i.e. `Inf`/`NaN` in `f32`) instead of an
explicit `DegenerateInterval` failure; moreover for a 1.5 s duration the code
divides by the truncated 1 s, so the result is not `(b − a)/d` even for a
nonzero duration. -/
theorem velocity_to_zero_duration_not_finite :
    Position.velocity_to ⟨0, 0⟩ ⟨1, 0⟩ 0 = ⟨none, none⟩ ∧
    Position.velocity_to ⟨0, 0⟩ ⟨1, 0⟩ (1 / 2) = ⟨none, none⟩ ∧
    Position.velocity_to ⟨0, 0⟩ ⟨2, 0⟩ (3 / 2) = ⟨some 2, some 0⟩ ∧
    (2 : ℚ) ≠ 2 / (3 / 2) := by
  refine ⟨?_, ?_, ?_, by norm_num⟩ <;>
    norm_num [Position.velocity_to, fdiv, durAsSecs, ratFloor_eq]

/-- C6 counterexample: for the decreasing history `[(5,0), (3,1)]` at `t = 0`
the latest sample at or before 0 has score 5 and `last_score` is 3, so the
`u32` subtraction wraps to `2^32 − 2 = 4294967294` in release builds (debug
builds panic) — not the claimed mathematical difference `3 − 5`. -/
theorem score_since_wraps_on_decreasing :
    ScoreHistory.score_since ⟨[(5, 0), (3, 1)]⟩ 0 = some 4294967294 ∧
    (4294967294 : ℤ) ≠ 3 - 5 := by
  constructor
  · decide
  · decide

/-- C6 amended: for a non-empty history, `score_since t` is the wrapping `u32`
difference between `last_score` and the score of the latest sample (in push
order) whose timestamp is at or before `t` (baseline 0 when none qualifies);
whenever that baseline does not exceed `last_score` (with the score in `u32`
range) this is the ordinary difference the claim states, but on a decreasing
history the subtraction wraps modulo `2^32` (release builds; debug panics). -/
theorem score_since_spec (h : ScoreHistory) (t : ℚ) (last : ℕ × ℚ)
    (hl : h.inner.getLast? = some last) :
    h.score_since t = some (u32sub last.1 (spec_baseline h t)) ∧
    (spec_baseline h t ≤ last.1 → last.1 < 2 ^ 32 →
      h.score_since t = some (last.1 - spec_baseline h t)) := by
  have h1 : h.score_since t = some (u32sub last.1 (spec_baseline h t)) := by
    unfold ScoreHistory.score_since ScoreHistory.last_score spec_baseline
    rw [hl, find?_rev]
    rfl
  refine ⟨h1, fun hle hlt => ?_⟩
  rw [h1]
  congr 1
  have hp : (2 : ℕ) ^ 32 = 4294967296 := by norm_num
  simp only [u32sub, hp]
  omega

/-- C6 witness: the history `[(3,0), (7,2), (9,4)]` queried at `t = 2` has
baseline 7 (the latest sample at or before 2), and the delta is the ordinary
difference `9 − 7 = 2`. -/
theorem score_since_spec_witness :
    (ScoreHistory.inner ⟨[(3, 0), (7, 2), (9, 4)]⟩).getLast? = some (9, 4) ∧
    (ScoreHistory.score_since ⟨[(3, 0), (7, 2), (9, 4)]⟩ 2 =
        some (u32sub (9, (4 : ℚ)).1 (spec_baseline ⟨[(3, 0), (7, 2), (9, 4)]⟩ 2)) ∧
      (spec_baseline ⟨[(3, 0), (7, 2), (9, 4)]⟩ 2 ≤ (9, (4 : ℚ)).1 →
        (9, (4 : ℚ)).1 < 2 ^ 32 →
        ScoreHistory.score_since ⟨[(3, 0), (7, 2), (9, 4)]⟩ 2 =
          some ((9, (4 : ℚ)).1 - spec_baseline ⟨[(3, 0), (7, 2), (9, 4)]⟩ 2))) :=
  ⟨by norm_num, score_since_spec ⟨[(3, 0), (7, 2), (9, 4)]⟩ 2 (9, 4) (by norm_num)⟩

/-- C7 counterexample: for the history `[(1, 0)]` at `now = 5` with horizon
5000 ms, the code projects `1` (the fractional product `1 × 0.5` is truncated
to 0 by the `f32 → u32` cast), while the claim's formula
`last_score + recent_delta × (horizon / lookback)` gives `1 + 1 × (1/2) ≠ 1`. -/
theorem project_truncates_fraction :
    ScoreHistory.project ⟨[(1, 0)]⟩ 5 5000 = some 1 ∧
    (1 : ℚ) + 1 * ((5000 : ℚ) / 10000) ≠ (1 : ℚ) := by
  refine ⟨?_, by norm_num⟩
  norm_num [ScoreHistory.project, ScoreHistory.score_since, ScoreHistory.last_score,
    u32sub, u32add, f32toU32, ratFloor_eq]

/-- C7 amended: for a non-empty history, `project` is `last_score` plus — with
wrapping `u32` addition — the saturating, truncating `f32 → u32` cast of
`recent_delta × (horizon_ms / 10000 ms)`, where `recent_delta` is the wrapping
`u32` delta computed by `score_since` at 10 s before the current instant
(baseline 0 when no sample is old enough). -/
theorem project_spec (h : ScoreHistory) (now : ℚ) (afterMs : ℕ) (last : ℕ × ℚ)
    (hl : h.inner.getLast? = some last) :
    h.project now afterMs =
      some (u32add last.1
        (f32toU32 ((u32sub last.1 (spec_baseline h (now - 10)) : ℕ) *
          ((afterMs : ℚ) / 10000)))) := by
  unfold ScoreHistory.project ScoreHistory.score_since ScoreHistory.last_score spec_baseline
  rw [hl, find?_rev]
  rfl

/-- C7 witness: the history `[(4, 0), (10, 96)]` projected 5000 ms ahead at
`now = 100` has 10-second delta `10 − 4 = 6` and projects
`10 + ⌊6 × 1/2⌋ = 13`. -/
theorem project_spec_witness :
    (ScoreHistory.inner ⟨[(4, 0), (10, 96)]⟩).getLast? = some (10, 96) ∧
    ScoreHistory.project ⟨[(4, 0), (10, 96)]⟩ 100 5000 =
      some (u32add (10, (96 : ℚ)).1
        (f32toU32 ((u32sub (10, (96 : ℚ)).1
            (spec_baseline ⟨[(4, 0), (10, 96)]⟩ (100 - 10)) : ℕ) *
          ((5000 : ℚ) / 10000)))) :=
  ⟨by norm_num, project_spec ⟨[(4, 0), (10, 96)]⟩ 100 5000 (10, 96) (by norm_num)⟩

/-- C1 counterexample: an analyzer tracking player 1 (via a first successful
`push_state`) that receives a snapshot containing only player 2 no longer
tracks player 1 after the second `push_state` — the claim says player 1 should
still be present unchanged. -/
theorem push_state_evicts_absent :
    ((Analyzer.new.push_state GS1 0).bind fun a =>
      (a.push_state GS2 1).map fun a2 => ((a.players 1).isSome, a2.players 1)) =
      some (true, none) := rfl

/-- C1 amended: `push_state` rebuilds the player map from the snapshot, so
after a completed `push_state` every id absent from the snapshot's players
list is untracked (players are destroyed on the first snapshot omitting them,
not only at reset). -/
theorem push_state_removes_absent (a : Analyzer) (gs : GameState) (t : ℚ) (id : ℕ)
    (h : id ∉ gs.players.map PlayerState.id) :
    onSome (a.push_state gs t) fun a2 => a2.players id = none := by
  unfold Analyzer.push_state
  cases hpp : push_players a.players (fun _ => none) gs.scoreboard t gs.players with
  | none => simp [onSome]
  | some m =>
    have hmid := push_players_none gs.players a.players (fun _ => none) gs.scoreboard t id h rfl
    rw [hpp] at hmid
    simpa [onSome] using hmid

/-- C1 witness: id 1 is absent from the snapshot `GS2`, and after pushing
`GS2` the analyzer does not track id 1. -/
theorem push_state_removes_absent_witness :
    (1 ∉ GS2.players.map PlayerState.id) ∧
    onSome (Analyzer.new.push_state GS2 0) fun a2 => a2.players 1 = none :=
  ⟨by decide, push_state_removes_absent Analyzer.new GS2 0 1 (by decide)⟩

/-- C10: `push_state` completes normally (no panic, modelled `isSome`) exactly
when every player id in the snapshot's players list has a scoreboard entry;
the hypothesis is the map invariant (each tracked player stored under its own
id) that every reachable analyzer satisfies, under which the `assert_eq!`
cannot fire and the only panic source is the scoreboard `unwrap`, in both the
create (`with_state`) and update (`push_state`) paths. -/
theorem push_state_requires_scoreboard (a : Analyzer) (gs : GameState) (t : ℚ)
    (hinv : ∀ i p, a.players i = some p → p.id = i) :
    (a.push_state gs t).isSome ↔ ∀ ps ∈ gs.players, (gs.scoreboard ps.id).isSome := by
  unfold Analyzer.push_state
  rw [Option.isSome_map']
  exact push_players_isSome gs.players a.players (fun _ => none) gs.scoreboard t hinv

/-- C10 witness: a fresh analyzer satisfies the map invariant, and pushing the
snapshot `GSmiss` (its player 3 has no scoreboard entry) panics — the
completion condition is false. -/
theorem push_state_requires_scoreboard_witness :
    (∀ i p, Analyzer.new.players i = some p → p.id = i) ∧
    ((Analyzer.new.push_state GSmiss 0).isSome ↔
      ∀ ps ∈ GSmiss.players, (GSmiss.scoreboard ps.id).isSome) :=
  ⟨fun _ _ h => Option.noConfusion h,
   push_state_requires_scoreboard Analyzer.new GSmiss 0 fun _ _ h => Option.noConfusion h⟩

/-- C5 counterexample: two samples 1.5 s apart at x-distance 3 give
`last_velocity = (3, 0)` (division by the truncated 1 whole second), not the
claimed finite difference `(3 − 0)/(1.5 − 0) = 2`. -/
theorem last_velocity_truncates_seconds :
    Trajectory.last_velocity ⟨[(⟨0, 0⟩, 0), (⟨3, 0⟩, 3 / 2)]⟩ = some ⟨some 3, some 0⟩ ∧
    (3 : ℚ) ≠ (3 - 0) / (3 / 2 - 0) := by
  constructor
  · norm_num [Trajectory.last_velocity, Position.velocity_to, fdiv, durAsSecs, ratFloor_eq]
  · norm_num

/-- C5 amended: `last_velocity` of a trajectory with at least two samples is
`velocity_to` of the two most recent samples, which divides the componentwise
difference by the whole-second truncation of the elapsed time (equal to the
claimed finite difference only when that elapsed time is a whole number of
seconds; sub-second gaps divide by zero); with exactly one sample it is the
zero vector, and after one `push_state` of a fresh analyzer every tracked
player's trajectory has exactly one entry and zero `last_velocity`. -/
theorem last_velocity_spec :
    (∀ (l : List (Position × ℚ)) (p1 p2 : Position) (t1 t2 : ℚ),
      Trajectory.last_velocity ⟨l ++ [(p1, t1), (p2, t2)]⟩ =
        some (p1.velocity_to p2 (t2 - t1))) ∧
    (∀ (p1 p2 : Position) (d : ℚ), 1 ≤ durAsSecs d →
      p1.velocity_to p2 d =
        ⟨some ((p2.x - p1.x) / (durAsSecs d : ℚ)),
         some ((p2.y - p1.y) / (durAsSecs d : ℚ))⟩) ∧
    (∀ (p : Position) (t : ℚ),
      Trajectory.last_velocity ⟨[(p, t)]⟩ = some Velocity.zeros) ∧
    (∀ (gs : GameState) (t : ℚ) (id : ℕ),
      onSome (Analyzer.new.push_state gs t) fun a =>
        onSome (a.players id) fun p =>
          p.trajectory.positions.length = 1 ∧
          p.trajectory.last_velocity = some Velocity.zeros) := by
  refine ⟨?_, ?_, ?_, ?_⟩
  · intro l p1 p2 t1 t2
    unfold Trajectory.last_velocity
    have hlast : (l ++ [(p1, t1), (p2, t2)]).getLast? = some (p2, t2) := by
      simp [List.getLast?_append]
    have hget : (l ++ [(p1, t1), (p2, t2)]).get? l.length = some (p1, t1) := by
      rw [List.get?_eq_getElem?, List.getElem?_append_right (le_refl _)]
      simp
    have hlen : (l ++ [(p1, t1), (p2, t2)]).length = l.length + 2 := by simp
    rw [hlast]
    simp only [Option.map_some']
    rw [hlen, if_pos (by omega : (2 : ℕ) ≤ l.length + 2)]
    have harith : l.length + 2 - 2 = l.length := by omega
    rw [harith, hget]
  · intro p1 p2 d hd
    have hne : durAsSecs d ≠ 0 := by omega
    simp [Position.velocity_to, fdiv, hne]
  · intro p t
    simp [Trajectory.last_velocity]
  · intro gs t id
    unfold Analyzer.push_state
    cases hpp : push_players (Analyzer.new.players) (fun _ => none) gs.scoreboard t gs.players with
    | none => simp [onSome]
    | some m =>
      have hfresh := push_players_fresh gs.players Analyzer.new.players (fun _ => none)
        gs.scoreboard t
        (fun p => p.trajectory.positions.length = 1 ∧
          p.trajectory.last_velocity = some Velocity.zeros)
        (fun _ => rfl) (fun _ _ h => Option.noConfusion h) ?_
      · rw [hpp] at hfresh
        simp only [onSome, Option.map_some']
        cases hm : m id with
        | none => simp [onSome]
        | some p => simpa [onSome] using hfresh id p hm
      · intro ps p hp
        unfold Player.with_state at hp
        cases hsb : gs.scoreboard ps.id with
        | none => rw [hsb] at hp; simp at hp
        | some sc =>
          rw [hsb] at hp
          simp only [Option.map_some', Option.some.injEq] at hp
          subst hp
          constructor
          · rfl
          · simp [Trajectory.last_velocity, Trajectory.push, Trajectory.new]

/-- C5 witness: two samples 2 s apart at x-distance 4 give velocity
`(4/2, 0) = (2, 0)`. -/
theorem last_velocity_spec_witness :
    1 ≤ durAsSecs 2 ∧
    Position.velocity_to ⟨0, 0⟩ ⟨4, 0⟩ 2 =
      ⟨some (((4 : ℚ) - 0) / (durAsSecs 2 : ℚ)),
       some (((0 : ℚ) - 0) / (durAsSecs 2 : ℚ))⟩ :=
  ⟨by norm_num [durAsSecs, ratFloor_eq],
   last_velocity_spec.2.1 ⟨0, 0⟩ ⟨4, 0⟩ 2 (by norm_num [durAsSecs, ratFloor_eq])⟩

/-- C8 counterexample: a stationary player sampled twice half a second apart
has `ave_abs_velocity` with both components non-finite (the per-step velocity
divides `0` by the truncated `0` whole seconds, `NaN` in `f32`), not the zero
vector claimed for arbitrary sample timestamps. -/
theorem ave_abs_velocity_nan_subsecond :
    Trajectory.ave_abs_velocity ⟨[(⟨0, 0⟩, 0), (⟨0, 0⟩, 1 / 2)]⟩ = ⟨none, none⟩ ∧
    (⟨none, none⟩ : Velocity) ≠ Velocity.zeros := by
  constructor
  · norm_num [Trajectory.ave_abs_velocity, Position.velocity_to, fdiv, durAsSecs,
      ratFloor_eq, Velocity.add, Velocity.zeros, Velocity.abs, Velocity.divNat, addO]
  · simp [Velocity.zeros]

/-- C8 amended: `ave_abs_velocity` is the zero vector for trajectories with 0
or 1 samples, and for a stationary player (all samples at one position, any
number of samples ≥ 2) provided each consecutive pair of samples is at least
one truncated whole second apart — samples within the same truncated second
divide by zero and contaminate the average with non-finite components. -/
theorem ave_abs_velocity_spec :
    (∀ tr : Trajectory, tr.positions.length ≤ 1 → tr.ave_abs_velocity = Velocity.zeros) ∧
    (∀ (p : Position) (l : List (Position × ℚ)), 2 ≤ l.length →
      (∀ x ∈ l, x.1 = p) →
      l.Chain' (fun a b => 1 ≤ durAsSecs (b.2 - a.2)) →
      Trajectory.ave_abs_velocity ⟨l⟩ = Velocity.zeros) := by
  constructor
  · intro tr hlen
    rcases tr with ⟨l⟩
    match l with
    | [] => rfl
    | [x] => rfl
    | x :: y :: rest => simp at hlen
  · intro p l hlen hp hchain
    unfold Trajectory.ave_abs_velocity
    have hvz : ∀ v ∈ (l.zip l.tail).map fun pq =>
        (pq.1.1.velocity_to pq.2.1 (pq.2.2 - pq.1.2)).abs, v = Velocity.zeros := by
      intro v hv
      simp only [List.mem_map] at hv
      obtain ⟨pq, hpq, rfl⟩ := hv
      have h1 : pq.1.1 = p := hp pq.1 (List.of_mem_zip hpq).1
      have h2 : pq.2.1 = p := hp pq.2 (by
        have hmt := (List.of_mem_zip hpq).2
        exact List.mem_of_mem_tail hmt)
      have hgap : 1 ≤ durAsSecs (pq.2.2 - pq.1.2) := chain'_mem_zip_tail hchain pq hpq
      have hne : durAsSecs (pq.2.2 - pq.1.2) ≠ 0 := by omega
      simp [Position.velocity_to, fdiv, hne, h1, h2, Velocity.abs, Velocity.zeros]
    simp only []
    rw [foldl_add_zeros _ hvz]
    split
    · rfl
    · simp [Velocity.divNat, Velocity.zeros]

/-- C8 witness: three identical samples at times 0, 1 and 2.5 seconds (gaps of
1 and 1.5 truncated seconds) average to the zero vector. -/
theorem ave_abs_velocity_spec_witness :
    2 ≤ ([((⟨1, 2⟩ : Position), (0 : ℚ)), (⟨1, 2⟩, 1), (⟨1, 2⟩, 5 / 2)]).length ∧
    (∀ x ∈ [((⟨1, 2⟩ : Position), (0 : ℚ)), (⟨1, 2⟩, 1), (⟨1, 2⟩, 5 / 2)],
      x.1 = (⟨1, 2⟩ : Position)) ∧
    ([((⟨1, 2⟩ : Position), (0 : ℚ)), (⟨1, 2⟩, 1), (⟨1, 2⟩, 5 / 2)]).Chain'
      (fun a b => 1 ≤ durAsSecs (b.2 - a.2)) ∧
    Trajectory.ave_abs_velocity ⟨[(⟨1, 2⟩, 0), (⟨1, 2⟩, 1), (⟨1, 2⟩, 5 / 2)]⟩ =
      Velocity.zeros :=
  ⟨by norm_num,
   by intro x hx; fin_cases hx <;> rfl,
   by norm_num [List.chain'_cons, durAsSecs, ratFloor_eq],
   ave_abs_velocity_spec.2 ⟨1, 2⟩ _ (by norm_num)
     (by intro x hx; fin_cases hx <;> rfl)
     (by norm_num [List.chain'_cons, durAsSecs, ratFloor_eq])⟩

/-- C2: `angle_to` uses the single-argument arctangent of the slope, which
collapses opposite directions: the bearings from the origin to `(1, 0)` (due
east) and to `(-1, 0)` (due west) both evaluate to 0, while the two-argument
arctangent of the spec distinguishes them as 0 and π; `Analyzer::angle_to`
composes the same restricted bearing, reporting 0 for a target due west. -/
theorem angle_to_loses_quadrant :
    Position.angle_to ⟨0, 0⟩ ⟨1, 0⟩ = 0 ∧
    Position.angle_to ⟨0, 0⟩ ⟨-1, 0⟩ = 0 ∧
    bearing ⟨0, 0⟩ ⟨1, 0⟩ = 0 ∧
    bearing ⟨0, 0⟩ ⟨-1, 0⟩ = Real.pi ∧
    Real.pi ≠ 0 ∧
    AA.angle_to 2 = some 0 := by
  refine ⟨?_, ?_, ?_, ?_, Real.pi_ne_zero, ?_⟩
  · norm_num [Position.angle_to]
  · norm_num [Position.angle_to]
  · have h1 : (⟨((1 - 0 : ℚ) : ℝ), ((0 - 0 : ℚ) : ℝ)⟩ : ℂ) = 1 := by
      simp [Complex.ext_iff]
    rw [bearing, h1, Complex.arg_one]
  · have h1 : (⟨((-1 - 0 : ℚ) : ℝ), ((0 - 0 : ℚ) : ℝ)⟩ : ℂ) = -1 := by
      simp [Complex.ext_iff]
    rw [bearing, h1, Complex.arg_neg_one]
  · show (AA.own_player.bind fun own => (AA.player 2).map fun tgt =>
      own.position.angle_to tgt.position) = some 0
    have hown : AA.own_player = some P1 := rfl
    have htgt : AA.player 2 = some P2 := rfl
    rw [hown, htgt]
    simp only [Option.some_bind, Option.map_some', Option.some.injEq]
    norm_num [P1, P2, Position.angle_to]

/-- C4 (forecaster modelled from spec §4.5, the source stub being
`unimplemented!()`): `bullets_to_collide` contains `(b, t)` exactly when `b`
is a tracked bullet whose closest-point-of-approach test reports a collision
at time `t` within the horizon; the result is sorted ascending by predicted
time; and a bullet at distance `d` heading straight at a stationary player
with speed `s` and hit radius 0 collides at `t = d / s` when `d / s ≤ h` and
is excluded when `h < d / s`. -/
theorem bullets_to_collide_spec :
    (∀ (pp pv : Position) (R h : ℚ) (bullets : List MBullet) (b : MBullet) (t : ℚ),
      (b, t) ∈ bullets_to_collide pp pv R h bullets ↔
        b ∈ bullets ∧ collide_time pp pv R h b = some t) ∧
    (∀ (pp pv : Position) (R h : ℚ) (bullets : List MBullet),
      (bullets_to_collide pp pv R h bullets).Pairwise fun x y => x.2 ≤ y.2) ∧
    (∀ (h d s : ℚ) (pid : ℕ), 0 ≤ h → 0 < d → 0 < s →
      (d / s ≤ h →
        collide_time ⟨0, 0⟩ ⟨0, 0⟩ 0 h ⟨⟨d, 0⟩, ⟨-s, 0⟩, pid⟩ = some (d / s)) ∧
      (h < d / s →
        collide_time ⟨0, 0⟩ ⟨0, 0⟩ 0 h ⟨⟨d, 0⟩, ⟨-s, 0⟩, pid⟩ = none)) := by
  refine ⟨?_, ?_, ?_⟩
  · intro pp pv R h bullets b t
    unfold bullets_to_collide sort_by_time
    rw [(List.perm_insertionSort _ _).mem_iff, List.mem_filterMap]
    constructor
    · rintro ⟨a, ha, hmap⟩
      rw [Option.map_eq_some'] at hmap
      obtain ⟨t2, ht2, heq⟩ := hmap
      rw [Prod.mk.injEq] at heq
      obtain ⟨rfl, rfl⟩ := heq
      exact ⟨ha, ht2⟩
    · rintro ⟨hb, hc⟩
      exact ⟨b, hb, by rw [hc]; rfl⟩
  · intro pp pv R h bullets
    exact List.sorted_insertionSort _ _
  · intro h d s pid hh hd hs
    rw [collide_time_head_on h d s pid hh hd hs]
    constructor
    · intro hc; rw [if_pos hc]
    · intro hc; rw [if_neg (not_le.2 hc)]

/-- C4 witness: a bullet 2 units east of the stationary player moving west at
speed 1 collides at `t = 2` within a horizon of 3 seconds. -/
theorem bullets_to_collide_spec_witness :
    (0 : ℚ) ≤ 3 ∧ (0 : ℚ) < 2 ∧ (0 : ℚ) < 1 ∧
    (((2 : ℚ) / 1 ≤ 3 →
       collide_time ⟨0, 0⟩ ⟨0, 0⟩ 0 3 ⟨⟨2, 0⟩, ⟨-1, 0⟩, 7⟩ = some (2 / 1)) ∧
     ((3 : ℚ) < 2 / 1 →
       collide_time ⟨0, 0⟩ ⟨0, 0⟩ 0 3 ⟨⟨2, 0⟩, ⟨-1, 0⟩, 7⟩ = none)) :=
  ⟨by norm_num, by norm_num, by norm_num,
   bullets_to_collide_spec.2.2 3 2 1 7 (by norm_num) (by norm_num) (by norm_num)⟩

end Spacebot
